import Mathlib

/-! # School recommendation engine: formal model

Shallow embedding of the `POST /api/recommend` handler of
`src/routes/api.js` (the school matching/recommendation engine),
together with the catalog query it issues, and proofs settling the
specification's claims about it.

JS strings are modelled as Lean `String`s.  The JS string primitives the
route uses (`trim`, `toLowerCase`, `split`, `replace(/\s+/g, " ")`, and
the case-insensitive "contains" regexes built by `rxContains`) are given
explicit structural definitions over `List Char`, so that every
definition evaluates by kernel reduction on concrete inputs.
-/

namespace SchoolFinder

/-- Whitespace test, modelling the JS regex class `\s` on the character
set the repository's data uses. -/
def wsChar (c : Char) : Bool := c.isWhitespace

/-- Model of JS `String.prototype.trim`: drop whitespace from both ends. -/
def trimChars (l : List Char) : List Char :=
  ((l.dropWhile wsChar).reverse.dropWhile wsChar).reverse

/-- JS `s.trim()`. -/
def jsTrim (s : String) : String := String.mk (trimChars s.data)

/-- Model of JS `String.prototype.toLowerCase` (ASCII case mapping). -/
def jsLower (s : String) : String := String.mk (s.data.map Char.toLower)

/-- Split on a class of separator characters, keeping empty segments,
modelling JS `String.prototype.split` with a character-class regex
(as in `split(/[|,]/)` and `split(",")` in the source). -/
def splitChars (p : Char → Bool) : List Char → List (List Char)
  | [] => [[]]
  | c :: cs =>
    match splitChars p cs with
    | [] => [[]]
    | seg :: rest => if p c then [] :: seg :: rest else (c :: seg) :: rest

/-- JS `s.split(sep)` for a character-class separator. -/
def jsSplit (p : Char → Bool) (s : String) : List String :=
  (splitChars p s.data).map String.mk

/-- Model of JS `.replace(/\s+/g, " ")`: every maximal whitespace run
becomes a single space (emitted at the run's last character). -/
def collapseWs : List Char → List Char
  | [] => []
  | c :: cs =>
    let r := collapseWs cs
    if wsChar c then
      match cs with
      | c2 :: _ => if wsChar c2 then r else ' ' :: r
      | [] => [' ']
    else c :: r

/-- JS `s.replace(/\s+/g, " ")`. -/
def normWs (s : String) : String := String.mk (collapseWs s.data)

/-- Tokenised form of the pattern that `rxContains` in the source builds:
`esc(String(s).trim()).replace(/\s+/g, "\\s+")` compiled with the `i`
flag.  `esc` makes every character a literal, so a pattern is a sequence
of literal characters (stored lowercased, for the `i` flag) and `\s+`
tokens, one per whitespace run. -/
inductive RTok where
  | lit (c : Char)
  | wsPlus
deriving DecidableEq

/-- Compile a (already trimmed) pattern string into its token list. -/
def tokChars : List Char → List RTok
  | [] => []
  | c :: cs =>
    let r := tokChars cs
    if wsChar c then
      match cs with
      | c2 :: _ => if wsChar c2 then r else RTok.wsPlus :: r
      | [] => [RTok.wsPlus]
    else RTok.lit c.toLower :: r

/-- Match the token list against the beginning of the target.  A `lit c`
token consumes one character equal to `c` up to case; a `wsPlus` token
consumes a nonempty whitespace run (greedily, which is complete here
because a `wsPlus` is never followed by another `wsPlus`). -/
def matchAt : List RTok → List Char → Bool
  | [], _ => true
  | RTok.lit _ :: _, [] => false
  | RTok.lit c :: ts, x :: xs => (x.toLower == c) && matchAt ts xs
  | RTok.wsPlus :: ts, xs =>
    !(xs.takeWhile wsChar).isEmpty && matchAt ts (xs.dropWhile wsChar)

/-- Does the token list match anywhere in the target? -/
def rxSearch (ts : List RTok) : List Char → Bool
  | [] => matchAt ts []
  | x :: xs => matchAt ts (x :: xs) || rxSearch ts xs

/-- Model of `rxContains(pat).test(t)` from the source: case-insensitive
"contains" match, tolerant to extra whitespace in the target. -/
def rxTest (pat t : String) : Bool := rxSearch (tokChars (jsTrim pat).data) t.data

/-- Three-way character-wise string comparison (the model used for both
the Mongo `sort` key comparison and JS `localeCompare` on the catalog's
names, which are plain ASCII). -/
def strCmp : List Char → List Char → Ordering
  | [], [] => .eq
  | [], _ :: _ => .lt
  | _ :: _, [] => .gt
  | a :: as, b :: bs => if a < b then .lt else if b < a then .gt else strCmp as bs

/-- A JSON value in one of the request-body fields that the route
normalises with `toArray`: absent, a string, or an array of strings. -/
inductive JVal where
  | missing
  | str (s : String)
  | arr (xs : List String)
deriving DecidableEq

/-- Model of the route's `toArray` helper: arrays pass through, a
nonempty string is split on commas, trimmed and cleaned of empties,
anything else becomes `[]`. -/
def toArray : JVal → List String
  | .arr xs => xs
  | .str s =>
    if s = "" then []
    else ((jsSplit (fun c => c == ',') s).map jsTrim).filter (fun t => t != "")
  | .missing => []

/-- The curriculum synonym table `CURR_SYNONYMS` of the source. -/
def CURR_SYNONYMS : List (String × List String) :=
  [("Cambridge", ["cambridge", "caie", "cie"]),
   ("ZIMSEC", ["zimsec"]),
   ("IB", ["ib", "international baccalaureate"])]

/-- The phase synonym table `PHASE_SYNONYMS` of the source. -/
def PHASE_SYNONYMS : List (String × List String) :=
  [("Pre-School", ["pre-school", "preschool", "early years", "ece"]),
   ("Primary School", ["primary school", "primary", "junior"]),
   ("High School", ["high school", "secondary", "senior"])]

/-- `TYPE2_DAY` from the source. -/
def TYPE2_DAY : List String := ["day", "day & boarding", "day and boarding"]

/-- `TYPE2_BOARDING` from the source. -/
def TYPE2_BOARDING : List String := ["boarding", "day & boarding", "day and boarding"]

/-- `dict[val] || [val]`, also covering the call sites that pass no
dictionary (there `dict` is `null` and the result is `[val]`, which is
what the miss case of an empty list gives). -/
def synLookup (dict : List (String × List String)) (v : String) : List String :=
  match dict.find? (fun e => e.1 == v) with
  | some e => e.2
  | none => [v]

/-- Model of `makeContainsRegexes`: for each requested value, one
"contains" pattern per distinct member of `[val, ...syns]` (a JS `Set`
keeps first-occurrence order, as `eraseDups` does). -/
def makeContainsRegexes (values : List String) (dict : List (String × List String)) : List String :=
  values.flatMap (fun raw =>
    let val := jsTrim raw
    (val :: synLookup dict val).eraseDups)

/-- Some pattern of the list matches the string. -/
def anyRegStr (regs : List String) (s : String) : Bool := regs.any (fun r => rxTest r s)

/-- Mongo `$in` with regexes on an array field: some element matches
some pattern. -/
def anyRegArr (regs : List String) (xs : List String) : Bool :=
  xs.any (fun x => anyRegStr regs x)

/-- A school catalog document with the fields the route reads, as stored
under the `src/models/school.js` schema (`id` stands for Mongo's `_id`).
`facilities` is the stored subdocument, a key/value list looked up by
key. -/
structure School where
  id : Nat
  name : String
  slug : String
  normalizedName : String
  city : String
  type : List String
  type2 : List String
  curriculum_list : List String
  learningEnvironment : Option String
  facilities : List (String × Bool)
  tier : Option String
deriving DecidableEq

/-- The boolean facility keys declared by `FacilitiesSchema` in
`src/models/school.js`. -/
def knownFacilityKeys : List String :=
  ["scienceLabs", "computerLab", "library", "makerSpaceSteamLab",
   "examCentreCambridge", "examCentreZimsec",
   "artStudio", "musicRoom", "dramaTheatre",
   "swimmingPool", "athleticsTrack", "rugbyField", "hockeyField",
   "tennisCourts", "basketballCourt", "netballCourt", "footballPitch",
   "cricketField",
   "counseling", "learningSupportSEN", "schoolClinicNurse", "cafeteria",
   "aftercare",
   "boarding", "transportBuses",
   "wifiCampus", "cctvSecurity", "powerBackup"]

/-- The request body fields the route destructures (the spec's
`SearchPreferences`).  `city = none` models an absent field (JS
destructuring then substitutes the default `"Harare"`); `some ""`
models a present empty string.  `facilities = none` models an absent or
non-array value (every use is guarded by `Array.isArray`). -/
structure Prefs where
  city : Option String
  learningEnvironment : Option String
  curriculum : JVal
  type : JVal
  type2 : JVal
  facilities : Option (List String)

/-- The city after JS destructuring with default `"Harare"`. -/
def effCity (p : Prefs) : String := p.city.getD "Harare"

/-- Truthiness of the destructured `learningEnvironment`. -/
def leTruthy (p : Prefs) : Bool := p.learningEnvironment.getD "" != ""

/-- The stored value of `d.facilities?.[f]`. -/
def facGet (d : School) (f : String) : Option Bool :=
  (d.facilities.find? (fun kv => kv.1 == f)).map (fun kv => kv.2)

/-- Truthiness of `d.facilities?.[f]`, and the Mongo condition
`facilities.f == true` on a stored document. -/
def facTrue (d : School) (f : String) : Bool := facGet d f == some true

/-- City conjunct `{ city: { $regex: rxContains(city) } }`, pushed when
the effective city is truthy. -/
def cityCond (p : Prefs) (d : School) : Bool :=
  if effCity p != "" then rxTest (effCity p) d.city else true

/-- Learning-environment conjunct
`{ learningEnvironment: { $regex: rxContains(le) } }`; `$regex` on a
missing field does not match. -/
def envCond (p : Prefs) (d : School) : Bool :=
  if leTruthy p then
    match d.learningEnvironment with
    | some s => rxTest (p.learningEnvironment.getD "") s
    | none => false
  else true

/-- Curriculum conjunct `{ curriculum_list: { $in: regs } }`. -/
def curCond (p : Prefs) (d : School) : Bool :=
  let cur := toArray p.curriculum
  if cur.isEmpty then true
  else anyRegArr (makeContainsRegexes cur CURR_SYNONYMS) d.curriculum_list

/-- Phase conjunct `{ type: { $in: regs } }`. -/
def phaseCond (p : Prefs) (d : School) : Bool :=
  let phases := toArray p.type
  if phases.isEmpty then true
  else anyRegArr (makeContainsRegexes phases PHASE_SYNONYMS) d.type

/-- `boardingType.some(v => /day/i.test(v))`. -/
def btWantDay (bt : List String) : Bool := bt.any (fun v => rxTest "day" v)

/-- `boardingType.some(v => /boarding/i.test(v))`. -/
def btWantBoarding (bt : List String) : Bool := bt.any (fun v => rxTest "boarding" v)

/-- Boarding/day conjunct: both wanted means no constraint; boarding
only means a boarding-like `type2` value or `facilities.boarding: true`;
day only means a day-like `type2` value or
`facilities.boarding: { $ne: true }` (which matches a missing field). -/
def boardingCond (p : Prefs) (d : School) : Bool :=
  let bt := toArray p.type2
  if bt.isEmpty then true
  else
    let wantDay := btWantDay bt
    let wantBoarding := btWantBoarding bt
    if wantDay && wantBoarding then true
    else if wantBoarding then
      anyRegArr (makeContainsRegexes TYPE2_BOARDING []) d.type2 || facTrue d "boarding"
    else if wantDay then
      anyRegArr (makeContainsRegexes TYPE2_DAY []) d.type2 || !(facTrue d "boarding")
    else true

/-- Modelled from the spec: the effect of the pushed condition
`{ ["facilities." + f]: true }` for one requested key `f`.  What it does
for a key unknown to `FacilitiesSchema` is decided by the persistence
layer's query casting (Mongoose `strictQuery` behaviour, fixed by the
repository's dependency manifest, which is not under `src/`); per the
spec ("unknown facility keys are ignored rather than erroring"),
conditions on unknown paths are stripped, so only keys known to the
schema constrain the candidate. -/
def facKeyCond (d : School) (f : String) : Bool :=
  if f ∈ knownFacilityKeys then facTrue d f else true

/-- Facilities conjuncts: `and.push({ ["facilities." + f]: true })` for
each requested key (see `facKeyCond` for the per-key semantics). -/
def facCond (p : Prefs) (d : School) : Bool :=
  match p.facilities with
  | some fs =>
    if fs.isEmpty then true
    else fs.all (fun f => facKeyCond d f)
  | none => true

/-- The whole filter: the `$and` of every pushed conjunct (an empty
condition list gives the match-all filter `{}`). -/
def schoolFilter (p : Prefs) (d : School) : Bool :=
  cityCond p d && envCond p d && curCond p d && phaseCond p d &&
  boardingCond p d && facCond p d

/-- Mongo `sort({ tier: 1, name: 1 })` comparison: ascending `tier` with
a missing value before any string, ties by ascending `name`. -/
def dbLe (a b : School) : Bool :=
  match a.tier, b.tier with
  | none, none => strCmp a.name.data b.name.data != Ordering.gt
  | none, some _ => true
  | some _, none => false
  | some x, some y =>
    match strCmp x.data y.data with
    | .lt => true
    | .gt => false
    | .eq => strCmp a.name.data b.name.data != Ordering.gt

/-- `School.find(filter).sort({ tier: 1, name: 1 }).limit(100).lean()`
over an explicit catalog list (the sort modelled as a stable sort). -/
def findDocs (p : Prefs) (catalog : List School) : List School :=
  (List.insertionSort (fun a b => dbLe a b = true)
    (catalog.filter (schoolFilter p))).take 100

/-- `(process.env.PINNED_SCHOOLS || default).split(/[|,]/)
.map(s => s.trim().toLowerCase()).filter(Boolean)`; `raw` is the
configured value. -/
def parsePinned (raw : String) : List String :=
  ((jsSplit (fun c => c == '|' || c == ',') raw).map
    (fun s => jsLower (jsTrim s))).filter (fun s => s != "")

/-- The fallback value of `process.env.PINNED_SCHOOLS` in the source. -/
def defaultPinnedRaw : String := "St Eurit International School"

/-- `shouldPin` is forced to `true` in the source ("Force pinning for
all recommend requests"); the `selectedZimsec` / `selectedHighSchool` /
`selectedBoarding` flags it once depended on are dead code and are not
modelled. -/
def shouldPin : Bool := true

/-- Model of `isPinnedDoc`: the document's name (lowercased,
whitespace-collapsed, trimmed), slug or normalizedName (lowercased,
trimmed) is in the pin list. -/
def isPinnedDoc (PINNED : List String) (d : School) : Bool :=
  PINNED.contains (jsTrim (normWs (jsLower d.name))) ||
  PINNED.contains (jsTrim (jsLower d.slug)) ||
  PINNED.contains (jsTrim (jsLower d.normalizedName))

/-- The `$or` part of the secondary pin lookup's `findOne` condition: an
anchored case-insensitive name match
(`new RegExp("^" + esc(q) + "$", "i")`, i.e. equality up to case), an
exact slug match, or an exact normalizedName match against the pin
list. -/
def pinMatchOr (PINNED : List String) (d : School) : Bool :=
  PINNED.any (fun q => jsLower d.name == jsLower q) ||
  PINNED.contains d.slug ||
  PINNED.contains d.normalizedName

/-- The full `findOne` condition of the secondary pin lookup:
constrained by city when the effective city is truthy, conjoined with
the `$or` above. -/
def pinQuery (p : Prefs) (PINNED : List String) (d : School) : Bool :=
  (if effCity p != "" then rxTest (effCity p) d.city else true) && pinMatchOr PINNED d

/-- The document list after the conditional pinning step: if no fetched
document matches the pin list, look up the first catalog document
satisfying the pin query and prepend it when found. -/
def selectedDocs (raw : String) (p : Prefs) (catalog : List School) : List School :=
  let PINNED := parsePinned raw
  let docs0 := findDocs p catalog
  if shouldPin && !(docs0.any (isPinnedDoc PINNED)) then
    match catalog.find? (pinQuery p PINNED) with
    | some e => e :: docs0
    | none => docs0
  else docs0

/-- Scorer hit test for the learning environment (same test in the
reasons block and the `matched` block). -/
def envHit (p : Prefs) (d : School) : Bool :=
  leTruthy p && rxTest (p.learningEnvironment.getD "") (d.learningEnvironment.getD "")

/-- Scorer hit test for the phase group. -/
def phaseHit (p : Prefs) (d : School) : Bool :=
  let phases := toArray p.type
  !phases.isEmpty && anyRegArr (makeContainsRegexes phases PHASE_SYNONYMS) d.type

/-- Scorer hit test for the curriculum group. -/
def curHit (p : Prefs) (d : School) : Bool :=
  let cur := toArray p.curriculum
  !cur.isEmpty && anyRegArr (makeContainsRegexes cur CURR_SYNONYMS) d.curriculum_list

/-- Scorer `dayHit`: a day-like `type2` value, or
`d.facilities?.boarding !== true`. -/
def dayHit (d : School) : Bool :=
  anyRegArr (makeContainsRegexes TYPE2_DAY []) d.type2 || !(facGet d "boarding" == some true)

/-- Scorer `boardingHit`: a boarding-like `type2` value, or
`d.facilities?.boarding === true`. -/
def boardingHit (d : School) : Bool :=
  anyRegArr (makeContainsRegexes TYPE2_BOARDING []) d.type2 || (facGet d "boarding" == some true)

/-- JS template interpolation of a possibly-undefined string value. -/
def jsShow : Option String → String
  | some s => s
  | none => "undefined"

/-- Reason pushed for the environment group. -/
def reasonEnv (p : Prefs) (d : School) : List String :=
  if envHit p d then [jsShow d.learningEnvironment ++ " learning environment"] else []

/-- Reason pushed for the phase group: the candidate's joined `type`. -/
def reasonPhase (p : Prefs) (d : School) : List String :=
  if phaseHit p d then [String.intercalate " & " d.type] else []

/-- Reasons pushed for the boarding/day group: "Day" and/or "Boarding"
for the sides requested and hit. -/
def reasonBoarding (p : Prefs) (d : School) : List String :=
  let bt := toArray p.type2
  if bt.isEmpty then []
  else
    (if btWantDay bt && dayHit d then ["Day"] else []) ++
    (if btWantBoarding bt && boardingHit d then ["Boarding"] else [])

/-- Reason pushed for the curriculum group: the candidate's joined
`curriculum_list`. -/
def reasonCur (p : Prefs) (d : School) : List String :=
  if curHit p d then [String.intercalate ", " d.curriculum_list] else []

/-- Reason pushed for the facilities group: the requested keys the
candidate has, when there is at least one. -/
def reasonFac (p : Prefs) (d : School) : List String :=
  match p.facilities with
  | some fs =>
    if fs.isEmpty then []
    else
      let got := fs.filter (fun f => facTrue d f)
      if got.isEmpty then [] else ["Facilities: " ++ String.intercalate ", " got]
  | none => []

/-- The `reasons` array, in the source's push order: environment, phase,
boarding/day, curriculum, facilities. -/
def mkReasons (p : Prefs) (d : School) : List String :=
  reasonEnv p d ++ reasonPhase p d ++ reasonBoarding p d ++ reasonCur p d ++ reasonFac p d

/-- Contribution of the environment group to `matched`. -/
def matchedEnv (p : Prefs) (d : School) : Nat := if envHit p d then 1 else 0

/-- Contribution of the phase group to `matched`. -/
def matchedPhase (p : Prefs) (d : School) : Nat := if phaseHit p d then 1 else 0

/-- Contribution of the boarding/day group to `matched` (one per side
requested and hit). -/
def matchedBoarding (p : Prefs) (d : School) : Nat :=
  let bt := toArray p.type2
  if bt.isEmpty then 0
  else
    (if btWantDay bt && dayHit d then 1 else 0) +
    (if btWantBoarding bt && boardingHit d then 1 else 0)

/-- Contribution of the curriculum group to `matched`. -/
def matchedCur (p : Prefs) (d : School) : Nat := if curHit p d then 1 else 0

/-- Contribution of the facilities group to `matched`:
`facilities.every(f => d.facilities?.[f])` on a nonempty request. -/
def matchedFac (p : Prefs) (d : School) : Nat :=
  match p.facilities with
  | some fs => if !fs.isEmpty && fs.all (fun f => facTrue d f) then 1 else 0
  | none => 0

/-- `matched`: the sum of the five group contributions, in source
order. -/
def matchedCount (p : Prefs) (d : School) : Nat :=
  matchedEnv p d + matchedPhase p d + matchedBoarding p d + matchedCur p d + matchedFac p d

/-- Denominator contribution of the environment group. -/
def denomEnv (p : Prefs) : Nat := if leTruthy p then 1 else 0

/-- Denominator contribution of the phase group. -/
def denomPhase (p : Prefs) : Nat := if (toArray p.type).isEmpty then 0 else 1

/-- Denominator contribution of the boarding/day group:
`boardingType.length ? (boardingType.length > 1 ? 2 : 1) : 0`. -/
def denomBoarding (p : Prefs) : Nat :=
  let bt := toArray p.type2
  if bt.isEmpty then 0 else if bt.length > 1 then 2 else 1

/-- Denominator contribution of the curriculum group. -/
def denomCur (p : Prefs) : Nat := if (toArray p.curriculum).isEmpty then 0 else 1

/-- Denominator contribution of the facilities group
(`facilities?.length ? 1 : 0`). -/
def denomFac (p : Prefs) : Nat :=
  match p.facilities with
  | some fs => if fs.isEmpty then 0 else 1
  | none => 0

/-- `denom`: the sum of the five group contributions. -/
def denomOf (p : Prefs) : Nat :=
  denomEnv p + denomPhase p + denomBoarding p + denomCur p + denomFac p

/-- The score `denom ? (matched / denom) * 100 : 100`, as an exact
rational.  Written with `mkRat` — the same rational as
`matched / denom * 100`, see `matchScore_eq_div` below — because the
ambient library's `Rat` division is `@[irreducible]` and would block
kernel evaluation on concrete inputs. -/
def matchScore (p : Prefs) (d : School) : ℚ :=
  if denomOf p = 0 then 100 else mkRat (matchedCount p d * 100) (denomOf p)

/-- The single-token both-sides boarding request (for example
`["Day & Boarding"]`): the one shape on which `matched` can exceed
`denom`. -/
def badBoth (p : Prefs) : Bool :=
  let bt := toArray p.type2
  bt.length == 1 && btWantDay bt && btWantBoarding bt

/-- One entry of the response's `recommendations` array.  `matchVal` is
the JS `match` field, `pinnedInternal` the JS `_pinned` field (which the
final `clean` map strips; it always equals `pinned` since `shouldPin` is
forced true).  The display pass-through fields (`website`, `facebook`,
`logo`, `heroImage`, `registerUrl`) carry no logic and are omitted. -/
structure Rec where
  id : Nat
  slug : String
  name : String
  city : String
  curriculum : List String
  type : List String
  type2 : List String
  learningEnvironment : Option String
  matchVal : ℚ
  reason : String
  pinnedInternal : Bool
  pinned : Bool
deriving DecidableEq

/-- Build one recommendation entry from a selected document. -/
def toRec (PINNED : List String) (p : Prefs) (d : School) : Rec where
  id := d.id
  slug := d.slug
  name := d.name
  city := d.city
  curriculum := d.curriculum_list
  type := d.type
  type2 := d.type2
  learningEnvironment := d.learningEnvironment
  matchVal := matchScore p d
  reason := String.intercalate " · " (mkReasons p d)
  pinnedInternal := isPinnedDoc PINNED d
  pinned := isPinnedDoc PINNED d && shouldPin

/-- The last two steps of the sort comparator, as the relation
"comparator result ≤ 0": `b.match - a.match` when the scores differ
(which is `≤ 0` exactly when `b.match ≤ a.match`), else
`a.name.localeCompare(b.name)` (modelled as character-wise
comparison). -/
def lexTail (a b : Rec) : Bool :=
  if a.matchVal ≠ b.matchVal then decide (b.matchVal ≤ a.matchVal)
  else strCmp a.name.data b.name.data != Ordering.gt

/-- The sort comparator of the source, as the relation "comparator
result ≤ 0": pinned entries first, then the score/name steps of
`lexTail`. -/
def recLe (a b : Rec) : Bool :=
  let ap := a.pinnedInternal && a.pinned
  let bp := b.pinnedInternal && b.pinned
  if ap && !bp then true
  else if !ap && bp then false
  else lexTail a b

/-- The full `POST /api/recommend` computation over an explicit catalog:
filtered fetch, conditional pinning, scoring, final sort.  JS
`Array.prototype.sort` is stable, and for a consistent comparator a
stable sort's output is unique, so `List.insertionSort` computes it. -/
def recommend (raw : String) (p : Prefs) (catalog : List School) : List Rec :=
  List.insertionSort (fun a b => recLe a b = true)
    ((selectedDocs raw p catalog).map (toRec (parsePinned raw) p))

/-- An all-empty preference record (city present but empty), used by
concrete instances. -/
def emptyPrefs : Prefs :=
  { city := some "", learningEnvironment := none, curriculum := .arr [],
    type := .arr [], type2 := .arr [], facilities := none }

/-- A plain catalog document used by concrete instances. -/
def greenHills : School :=
  { id := 1, name := "Green Hills", slug := "green-hills",
    normalizedName := "green hills", city := "Harare",
    type := ["Primary School"], type2 := [],
    curriculum_list := ["Cambridge"], learningEnvironment := none,
    facilities := [], tier := none }

/-- The configured pin target under the default configuration, with
facilities satisfying a strict subset of `["swimmingPool", "library"]`. -/
def stEurit : School :=
  { id := 7, name := "St Eurit International School", slug := "st-eurit",
    normalizedName := "", city := "Harare", type := [], type2 := [],
    curriculum_list := [], learningEnvironment := none,
    facilities := [("swimmingPool", true), ("library", false)], tier := none }

/-- Preferences requesting the two facilities. -/
def facPrefs : Prefs :=
  { city := none, learningEnvironment := none, curriculum := .arr [],
    type := .arr [], type2 := .arr [], facilities := some ["swimmingPool", "library"] }

/-- Preferences whose single boarding token names both day and boarding. -/
def bothTokenPrefs : Prefs :=
  { emptyPrefs with type2 := .arr ["Day & Boarding"] }

/-- A document that hits both the day and the boarding side. -/
def bothTokenSchool : School :=
  { greenHills with id := 2, type2 := ["Day & Boarding"] }

/-- Preferences with the two-token boarding list `["Day", "Day"]`. -/
def dayDayPrefs : Prefs :=
  { emptyPrefs with type2 := .arr ["Day", "Day"] }

/-- Preferences naming a city that matches no catalog document. -/
def bulawayoPrefs : Prefs :=
  { emptyPrefs with city := some "Bulawayo" }

/-- Preferences with every field absent (city defaults to "Harare"). -/
def missingPrefs : Prefs :=
  { city := none, learningEnvironment := none, curriculum := .missing,
    type := .missing, type2 := .missing, facilities := none }

/-- A document whose name contains a double space, matching the
pathological pin configuration `"a  b"`. -/
def doubleSpaceSchool : School :=
  { id := 3, name := "A  B", slug := "", normalizedName := "",
    city := "Harare", type := [], type2 := [], curriculum_list := [],
    learningEnvironment := none, facilities := [], tier := none }

/-- Preferences requesting the Cambridge curriculum. -/
def cambridgePrefs : Prefs :=
  { emptyPrefs with curriculum := .arr ["Cambridge"] }

/-- A document whose stored curricula contain the literal "caie". -/
def caieSchool : School :=
  { greenHills with id := 4, curriculum_list := ["caie"] }

/-- A document located outside the default city. -/
def bulawayoSchool : School :=
  { greenHills with id := 5, city := "Bulawayo" }

/-! ## Order lemmas for the comparator -/

theorem strCmp_eq_iff : ∀ (x y : List Char), strCmp x y = Ordering.eq ↔ x = y
  | [], [] => by simp [strCmp]
  | [], _ :: _ => by simp [strCmp]
  | _ :: _, [] => by simp [strCmp]
  | a :: as, b :: bs => by
    have ih := strCmp_eq_iff as bs
    simp only [strCmp]
    rcases lt_trichotomy a b with h | h | h
    · rw [if_pos h]
      simp only [List.cons.injEq]
      constructor
      · intro hc; exact absurd hc (by decide)
      · rintro ⟨rfl, -⟩; exact absurd h (lt_irrefl a)
    · subst h
      rw [if_neg (lt_irrefl a), if_neg (lt_irrefl a)]
      simp [ih]
    · rw [if_neg (lt_asymm h), if_pos h]
      simp only [List.cons.injEq]
      constructor
      · intro hc; exact absurd hc (by decide)
      · rintro ⟨rfl, -⟩; exact absurd h (lt_irrefl a)

theorem strCmp_swap : ∀ (x y : List Char), strCmp y x = (strCmp x y).swap
  | [], [] => by simp [strCmp, Ordering.swap]
  | [], _ :: _ => by simp [strCmp, Ordering.swap]
  | _ :: _, [] => by simp [strCmp, Ordering.swap]
  | a :: as, b :: bs => by
    have ih := strCmp_swap as bs
    simp only [strCmp]
    rcases lt_trichotomy a b with h | h | h
    · rw [if_neg (lt_asymm h), if_pos h, if_pos h]; rfl
    · subst h
      rw [if_neg (lt_irrefl a), if_neg (lt_irrefl a), if_neg (lt_irrefl a),
        if_neg (lt_irrefl a)]
      exact ih
    · rw [if_pos h, if_neg (lt_asymm h), if_pos h]; rfl

theorem strCmp_lt_trans :
    ∀ (x y z : List Char), strCmp x y = Ordering.lt → strCmp y z = Ordering.lt →
      strCmp x z = Ordering.lt
  | [], [], _ => by intro h1 _; simp [strCmp] at h1
  | [], _ :: _, [] => by intro _ h2; simp [strCmp] at h2
  | [], _ :: _, _ :: _ => by intro _ _; simp [strCmp]
  | _ :: _, [], _ => by intro h1 _; simp [strCmp] at h1
  | _ :: _, _ :: _, [] => by intro _ h2; simp [strCmp] at h2
  | a :: as, b :: bs, c :: cs => by
    intro h1 h2
    have ih := strCmp_lt_trans as bs cs
    simp only [strCmp] at h1 h2 ⊢
    rcases lt_trichotomy a b with hab | hab | hab
    · rcases lt_trichotomy b c with hbc | hbc | hbc
      · rw [if_pos (lt_trans hab hbc)]
      · subst hbc; rw [if_pos hab]
      · rw [if_neg (lt_asymm hbc), if_pos hbc] at h2
        exact absurd h2 (by decide)
    · subst hab
      rw [if_neg (lt_irrefl a), if_neg (lt_irrefl a)] at h1
      rcases lt_trichotomy a c with hac | hac | hac
      · rw [if_pos hac]
      · subst hac
        rw [if_neg (lt_irrefl a), if_neg (lt_irrefl a)] at h2 ⊢
        exact ih h1 h2
      · rw [if_neg (lt_asymm hac), if_pos hac] at h2
        exact absurd h2 (by decide)
    · rw [if_neg (lt_asymm hab), if_pos hab] at h1
      exact absurd h1 (by decide)

theorem strCmp_notGt_trans {x y z : List Char}
    (h1 : strCmp x y ≠ Ordering.gt) (h2 : strCmp y z ≠ Ordering.gt) :
    strCmp x z ≠ Ordering.gt := by
  cases hxy : strCmp x y with
  | gt => exact absurd hxy h1
  | eq => rw [(strCmp_eq_iff x y).mp hxy]; exact h2
  | lt =>
    cases hyz : strCmp y z with
    | gt => exact absurd hyz h2
    | eq => rw [← (strCmp_eq_iff y z).mp hyz]; rw [hxy]; decide
    | lt => rw [strCmp_lt_trans x y z hxy hyz]; decide

theorem strCmp_notGt_total (x y : List Char) :
    strCmp x y ≠ Ordering.gt ∨ strCmp y x ≠ Ordering.gt := by
  cases hxy : strCmp x y with
  | lt => left; decide
  | eq => left; decide
  | gt =>
    right
    rw [strCmp_swap x y, hxy]
    decide

theorem ordBne_iff (x y : Ordering) : (x != y) = true ↔ x ≠ y := by
  cases x <;> cases y <;> decide

theorem lexTail_trans {a b c : Rec} (h1 : lexTail a b = true) (h2 : lexTail b c = true) :
    lexTail a c = true := by
  unfold lexTail at h1 h2 ⊢
  by_cases hab : a.matchVal = b.matchVal
  · rw [if_neg (fun hc => hc hab)] at h1
    by_cases hbc : b.matchVal = c.matchVal
    · rw [if_neg (fun hc => hc hbc)] at h2
      rw [if_neg (fun hc => hc (hab.trans hbc))]
      rw [ordBne_iff] at h1 h2 ⊢
      exact strCmp_notGt_trans h1 h2
    · rw [if_pos hbc] at h2
      have h2q : c.matchVal < b.matchVal :=
        lt_of_le_of_ne (of_decide_eq_true h2) (fun hc => hbc hc.symm)
      have hlt : c.matchVal < a.matchVal := hab ▸ h2q
      rw [if_pos (ne_of_gt hlt)]
      exact decide_eq_true (le_of_lt hlt)
  · rw [if_pos hab] at h1
    have h1q : b.matchVal < a.matchVal :=
      lt_of_le_of_ne (of_decide_eq_true h1) (fun hc => hab hc.symm)
    by_cases hbc : b.matchVal = c.matchVal
    · have hlt : c.matchVal < a.matchVal := hbc ▸ h1q
      rw [if_pos (ne_of_gt hlt)]
      exact decide_eq_true (le_of_lt hlt)
    · rw [if_pos hbc] at h2
      have h2q : c.matchVal < b.matchVal :=
        lt_of_le_of_ne (of_decide_eq_true h2) (fun hc => hbc hc.symm)
      have hlt : c.matchVal < a.matchVal := lt_trans h2q h1q
      rw [if_pos (ne_of_gt hlt)]
      exact decide_eq_true (le_of_lt hlt)

theorem lexTail_total (a b : Rec) : lexTail a b = true ∨ lexTail b a = true := by
  unfold lexTail
  by_cases hab : a.matchVal = b.matchVal
  · rw [if_neg (fun hc => hc hab), if_neg (fun hc => hc hab.symm)]
    rcases strCmp_notGt_total a.name.data b.name.data with h | h
    · left; exact (ordBne_iff _ _).mpr h
    · right; exact (ordBne_iff _ _).mpr h
  · rcases le_total a.matchVal b.matchVal with h | h
    · right; rw [if_pos (fun hc => hab hc.symm)]
      exact decide_eq_true h
    · left; rw [if_pos hab]
      exact decide_eq_true h

theorem recLe_trans {a b c : Rec} (h1 : recLe a b = true) (h2 : recLe b c = true) :
    recLe a c = true := by
  unfold recLe at h1 h2 ⊢
  cases hpa : (a.pinnedInternal && a.pinned) <;>
  cases hpb : (b.pinnedInternal && b.pinned) <;>
  cases hpc : (c.pinnedInternal && c.pinned) <;>
  simp [hpa, hpb, hpc] at h1 h2 ⊢ <;>
  exact lexTail_trans h1 h2

theorem recLe_total (a b : Rec) : recLe a b = true ∨ recLe b a = true := by
  unfold recLe
  cases hpa : (a.pinnedInternal && a.pinned) <;>
  cases hpb : (b.pinnedInternal && b.pinned) <;>
  simp [hpa, hpb] <;>
  exact lexTail_total a b

theorem recLe_false_of_unpinned_pinned {a b : Rec}
    (ha : (a.pinnedInternal && a.pinned) = false)
    (hb : (b.pinnedInternal && b.pinned) = true) : recLe a b = false := by
  unfold recLe
  simp [ha, hb]

theorem sortedRecs_head {x : Rec} {rest : List Rec}
    (hx : (x.pinnedInternal && x.pinned) = true)
    (hr : ∀ y ∈ rest, (y.pinnedInternal && y.pinned) = false) :
    (List.insertionSort (fun a b => recLe a b = true) (x :: rest)).head? = some x := by
  haveI : IsTotal Rec (fun a b => recLe a b = true) := ⟨recLe_total⟩
  haveI : IsTrans Rec (fun a b => recLe a b = true) :=
    ⟨fun _ _ _ h1 h2 => recLe_trans h1 h2⟩
  have hperm := List.perm_insertionSort (fun a b : Rec => recLe a b = true) (x :: rest)
  have hsorted := List.sorted_insertionSort (fun a b : Rec => recLe a b = true) (x :: rest)
  cases hout : List.insertionSort (fun a b : Rec => recLe a b = true) (x :: rest) with
  | nil =>
    rw [hout] at hperm
    have := hperm.length_eq
    simp at this
  | cons h t =>
    by_cases hhx : h = x
    · rw [hhx]; rfl
    · have hmemh : h ∈ x :: rest := by
        refine hperm.mem_iff.mp ?_
        rw [hout]
        exact List.mem_cons_self h t
      have hh : h ∈ rest := by
        rcases List.mem_cons.mp hmemh with h1 | h1
        · exact absurd h1 hhx
        · exact h1
      have hflagh := hr h hh
      have hmemx : x ∈ h :: t := by
        rw [← hout]
        exact hperm.mem_iff.mpr (List.mem_cons_self x rest)
      have hxt : x ∈ t := by
        rcases List.mem_cons.mp hmemx with h1 | h1
        · exact absurd h1.symm hhx
        · exact h1
      have hrel : recLe h x = true := by
        rw [hout] at hsorted
        exact (List.pairwise_cons.mp hsorted).1 x hxt
      rw [recLe_false_of_unpinned_pinned hflagh hx] at hrel
      exact absurd hrel (by decide)

/-! ## Score bounds -/

theorem matchedEnv_le (p : Prefs) (d : School) : matchedEnv p d ≤ denomEnv p := by
  unfold matchedEnv denomEnv
  by_cases h : envHit p d = true
  · have hle : leTruthy p = true := by
      have h2 := h
      unfold envHit at h2
      rw [Bool.and_eq_true] at h2
      exact h2.1
    simp [h, hle]
  · simp [h]

theorem matchedPhase_le (p : Prefs) (d : School) : matchedPhase p d ≤ denomPhase p := by
  unfold matchedPhase denomPhase
  by_cases h : phaseHit p d = true
  · have hne : (toArray p.type).isEmpty = false := by
      have h2 := h
      unfold phaseHit at h2
      rw [Bool.and_eq_true] at h2
      simpa using h2.1
    simp [h, hne]
  · simp [h]

theorem matchedCur_le (p : Prefs) (d : School) : matchedCur p d ≤ denomCur p := by
  unfold matchedCur denomCur
  by_cases h : curHit p d = true
  · have hne : (toArray p.curriculum).isEmpty = false := by
      have h2 := h
      unfold curHit at h2
      rw [Bool.and_eq_true] at h2
      simpa using h2.1
    simp [h, hne]
  · simp [h]

theorem matchedFac_le (p : Prefs) (d : School) : matchedFac p d ≤ denomFac p := by
  unfold matchedFac denomFac
  cases hf : p.facilities with
  | none => simp
  | some fs =>
    cases he : fs.isEmpty
    · simp only [he, Bool.false_eq_true, reduceIte, Bool.not_false, Bool.true_and]
      split <;> simp
    · simp [he]

theorem matchedBoarding_le (p : Prefs) (d : School) :
    matchedBoarding p d ≤ denomBoarding p + (if badBoth p = true then 1 else 0) := by
  unfold matchedBoarding denomBoarding badBoth
  cases he : (toArray p.type2).isEmpty with
  | true => simp [he]
  | false =>
    have hlen0 : (toArray p.type2).length ≠ 0 := by
      cases hbt : toArray p.type2
      · rw [hbt] at he; simp at he
      · simp [hbt]
    simp only [he, Bool.false_eq_true, reduceIte]
    split_ifs with hd1 hd2 hd3 hd4 <;> try omega
    all_goals
      rename_i hbb
      exfalso
      apply hbb
      have hwd : btWantDay (toArray p.type2) = true := by
        have h := hd1; rw [Bool.and_eq_true] at h; exact h.1
      have hwb : btWantBoarding (toArray p.type2) = true := by
        have h := hd2; rw [Bool.and_eq_true] at h; exact h.1
      have hl1 : (toArray p.type2).length = 1 := by omega
      rw [hl1, hwd, hwb]
      rfl

theorem matchedCount_le (p : Prefs) (d : School) :
    matchedCount p d ≤ denomOf p + (if badBoth p = true then 1 else 0) := by
  have h1 := matchedEnv_le p d
  have h2 := matchedPhase_le p d
  have h3 := matchedBoarding_le p d
  have h4 := matchedCur_le p d
  have h5 := matchedFac_le p d
  unfold matchedCount denomOf
  generalize (if badBoth p = true then 1 else 0) = k at h3
  omega

theorem matchedCount_le_of_not_badBoth (p : Prefs) (d : School) (h : badBoth p = false) :
    matchedCount p d ≤ denomOf p := by
  have := matchedCount_le p d
  rw [h] at this
  simpa using this

theorem matchedCount_le_succ (p : Prefs) (d : School) :
    matchedCount p d ≤ denomOf p + 1 := by
  have := matchedCount_le p d
  have hk : (if badBoth p = true then 1 else 0) ≤ 1 := by split <;> omega
  omega

theorem matchScore_eq_div (p : Prefs) (d : School) (h : denomOf p ≠ 0) :
    matchScore p d = (matchedCount p d : ℚ) / (denomOf p : ℚ) * 100 := by
  unfold matchScore
  rw [if_neg h, Rat.mkRat_eq_div]
  push_cast
  ring

theorem matchScore_nonneg (p : Prefs) (d : School) : 0 ≤ matchScore p d := by
  unfold matchScore
  split
  · norm_num
  · rw [Rat.mkRat_eq_div]
    positivity

theorem matchScore_le_100 (p : Prefs) (d : School) (h : badBoth p = false) :
    matchScore p d ≤ 100 := by
  unfold matchScore
  split
  · norm_num
  · rename_i hd
    have hm := matchedCount_le_of_not_badBoth p d h
    have hdpos : (0 : ℚ) < (denomOf p : ℚ) := by
      exact_mod_cast Nat.pos_of_ne_zero hd
    rw [Rat.mkRat_eq_div, div_le_iff₀ hdpos]
    have hmq : (matchedCount p d : ℚ) ≤ (denomOf p : ℚ) := by exact_mod_cast hm
    push_cast
    nlinarith [hmq]

theorem matchScore_le_200 (p : Prefs) (d : School) : matchScore p d ≤ 200 := by
  unfold matchScore
  split
  · norm_num
  · rename_i hd
    have hm := matchedCount_le_succ p d
    have hd1 : 1 ≤ denomOf p := Nat.pos_of_ne_zero hd
    have hm2 : matchedCount p d ≤ 2 * denomOf p := by omega
    have hdpos : (0 : ℚ) < (denomOf p : ℚ) := by
      exact_mod_cast Nat.pos_of_ne_zero hd
    rw [Rat.mkRat_eq_div, div_le_iff₀ hdpos]
    have hmq : (matchedCount p d : ℚ) ≤ 2 * (denomOf p : ℚ) := by exact_mod_cast hm2
    push_cast
    nlinarith [hmq]

/-! ## Engine helper lemmas -/

theorem mem_findDocs {p : Prefs} {catalog : List School} {d : School}
    (h : d ∈ findDocs p catalog) : d ∈ catalog ∧ schoolFilter p d = true := by
  unfold findDocs at h
  have h2 := List.mem_of_mem_take h
  have h3 : d ∈ catalog.filter (schoolFilter p) :=
    (List.perm_insertionSort _ _).subset h2
  exact ⟨List.mem_of_mem_filter h3, List.of_mem_filter h3⟩

theorem facKeyCond_of_known {d : School} {f : String} (h : f ∈ knownFacilityKeys) :
    facKeyCond d f = facTrue d f := by
  unfold facKeyCond
  rw [if_pos h]

theorem facKeyCond_of_unknown {d : School} {f : String} (h : f ∉ knownFacilityKeys) :
    facKeyCond d f = true := by
  unfold facKeyCond
  rw [if_neg h]

theorem facCond_drop_unknown {p : Prefs} {fs : List String} {f : String}
    (hf : f ∉ knownFacilityKeys) (d : School) :
    facCond { p with facilities := some (f :: fs) } d
      = facCond { p with facilities := some fs } d := by
  show (if (f :: fs).isEmpty then true else (f :: fs).all (fun g => facKeyCond d g))
      = (if fs.isEmpty then true else fs.all (fun g => facKeyCond d g))
  rw [List.all_cons, facKeyCond_of_unknown hf]
  cases fs <;> simp

theorem selectedDocs_drop_unknown (raw : String) (p : Prefs) (catalog : List School)
    {fs : List String} {f : String} (hf : f ∉ knownFacilityKeys) :
    selectedDocs raw { p with facilities := some (f :: fs) } catalog
      = selectedDocs raw { p with facilities := some fs } catalog := by
  have hfilter : ∀ d ∈ catalog,
      schoolFilter { p with facilities := some (f :: fs) } d
        = schoolFilter { p with facilities := some fs } d := by
    intro d _
    unfold schoolFilter
    rw [facCond_drop_unknown hf]
    rfl
  unfold selectedDocs findDocs
  rw [List.filter_congr hfilter]
  rfl

theorem isPinnedDoc_of_pinMatchOr {PINNED : List String} {e : School}
    (hwf : ∀ q ∈ PINNED, jsLower q = q ∧ jsTrim q = q ∧ normWs q = q)
    (h : pinMatchOr PINNED e = true) : isPinnedDoc PINNED e = true := by
  unfold pinMatchOr at h
  unfold isPinnedDoc
  rw [Bool.or_eq_true, Bool.or_eq_true] at h
  rw [Bool.or_eq_true, Bool.or_eq_true]
  rcases h with (hname | hslug) | hnorm
  · obtain ⟨q, hqmem, hbeq⟩ := List.any_eq_true.mp hname
    have heq : jsLower e.name = jsLower q := eq_of_beq hbeq
    obtain ⟨hw1, hw2, hw3⟩ := hwf q hqmem
    left; left
    rw [heq, hw1, hw3, hw2]
    exact List.elem_iff.mpr hqmem
  · have hmem : e.slug ∈ PINNED := List.elem_iff.mp hslug
    obtain ⟨hw1, hw2, -⟩ := hwf _ hmem
    left; right
    rw [hw1, hw2]
    exact List.elem_iff.mpr hmem
  · have hmem : e.normalizedName ∈ PINNED := List.elem_iff.mp hnorm
    obtain ⟨hw1, hw2, -⟩ := hwf _ hmem
    right
    rw [hw1, hw2]
    exact List.elem_iff.mpr hmem

theorem selectedDocs_of_any_pinned {raw : String} {p : Prefs} {catalog : List School}
    (h : (findDocs p catalog).any (isPinnedDoc (parsePinned raw)) = true) :
    selectedDocs raw p catalog = findDocs p catalog := by
  unfold selectedDocs
  simp [h, shouldPin]

theorem selectedDocs_of_find_some {raw : String} {p : Prefs} {catalog : List School}
    {e : School}
    (h : (findDocs p catalog).any (isPinnedDoc (parsePinned raw)) = false)
    (hfind : catalog.find? (pinQuery p (parsePinned raw)) = some e) :
    selectedDocs raw p catalog = e :: findDocs p catalog := by
  unfold selectedDocs
  simp [h, hfind, shouldPin]

theorem selectedDocs_of_find_none {raw : String} {p : Prefs} {catalog : List School}
    (h : (findDocs p catalog).any (isPinnedDoc (parsePinned raw)) = false)
    (hfind : catalog.find? (pinQuery p (parsePinned raw)) = none) :
    selectedDocs raw p catalog = findDocs p catalog := by
  unfold selectedDocs
  simp [h, hfind, shouldPin]

/-! ## Claims -/

/-- C1 (counterexample): for the preferences whose boardingType list is
the single token `["Day & Boarding"]` and a school whose `type2` is
`["Day & Boarding"]`, the score computed by the recommend scorer is 200,
outside `[0, 100]` — refuting the claim that the matchScore always lies
in `[0, 100]`. -/
theorem claim_C1_counterexample :
    matchScore bothTokenPrefs bothTokenSchool = 200 ∧
    ¬ matchScore bothTokenPrefs bothTokenSchool ≤ 100 := by
  decide

/-- C1 (amended): for every school record and preferences, the
matchScore lies in `[0, 200]`; and it lies in `[0, 100]` whenever the
boardingType list is not a single token naming both day and boarding
(the `badBoth` shape, the only one on which `matched` can exceed
`denom`). -/
theorem claim_C1_amended (p : Prefs) (d : School) :
    0 ≤ matchScore p d ∧ matchScore p d ≤ 200 ∧
    (badBoth p = false → matchScore p d ≤ 100) :=
  ⟨matchScore_nonneg p d, matchScore_le_200 p d, fun h => matchScore_le_100 p d h⟩

/-- C1 (witness): the amended bound instantiated at concrete inputs. -/
theorem claim_C1_witness :
    badBoth facPrefs = false ∧ matchScore facPrefs stEurit ≤ 100 :=
  ⟨by decide, (claim_C1_amended facPrefs stEurit).2.2 (by decide)⟩

/-- C4 (counterexample): for the boardingType list `["Day", "Day"]`, the
scoring denominator's boarding contribution is 2 even though Boarding
was not requested — refuting the claim that the contribution is 1
whenever not both sides were requested. -/
theorem claim_C4_counterexample :
    denomBoarding dayDayPrefs = 2 ∧
    btWantDay (toArray dayDayPrefs.type2) = true ∧
    btWantBoarding (toArray dayDayPrefs.type2) = false := by
  decide

/-- C4 (amended): for every preferences with nonempty boardingType list,
the denominator equals the denominator with boardingType emptied plus 2
when the list has more than one element and plus 1 otherwise — the code
keys the contribution on the list length, not on which sides were
named. -/
theorem claim_C4_amended (p : Prefs) (h : toArray p.type2 ≠ []) :
    denomOf p = denomOf { p with type2 := JVal.arr [] }
      + (if (toArray p.type2).length > 1 then 2 else 1) := by
  have he : (toArray p.type2).isEmpty = false := by
    cases hbt : toArray p.type2
    · exact absurd hbt h
    · rfl
  have hLe : leTruthy { p with type2 := JVal.arr [] } = leTruthy p := rfl
  have hTy : toArray ({ p with type2 := JVal.arr [] }).type = toArray p.type := rfl
  have hCur : toArray ({ p with type2 := JVal.arr [] }).curriculum = toArray p.curriculum := rfl
  have hFac : ({ p with type2 := JVal.arr [] }).facilities = p.facilities := rfl
  have hT2 : toArray ({ p with type2 := JVal.arr [] }).type2 = [] := rfl
  unfold denomOf denomEnv denomPhase denomBoarding denomCur denomFac
  rw [hLe, hTy, hCur, hFac, hT2]
  simp only [he, Bool.false_eq_true, reduceIte, List.isEmpty_nil, if_true]
  omega

/-- C4 (witness): the amended denominator equation at `["Day", "Day"]`. -/
theorem claim_C4_witness :
    toArray dayDayPrefs.type2 ≠ [] ∧
    denomOf dayDayPrefs = denomOf { dayDayPrefs with type2 := JVal.arr [] }
      + (if (toArray dayDayPrefs.type2).length > 1 then 2 else 1) :=
  ⟨by decide, claim_C4_amended dayDayPrefs (by decide)⟩

/-- C7: for every school record and preferences whose five signal fields
are all empty or absent, the recommend scorer assigns matchScore 100
(the denominator is 0 and the code then sets the score to 100). -/
theorem claim_C7 (p : Prefs) (d : School)
    (h1 : leTruthy p = false) (h2 : toArray p.curriculum = [])
    (h3 : toArray p.type = []) (h4 : toArray p.type2 = [])
    (h5 : p.facilities = none ∨ p.facilities = some []) :
    matchScore p d = 100 := by
  have hden : denomOf p = 0 := by
    unfold denomOf denomEnv denomPhase denomBoarding denomCur denomFac
    rcases h5 with h5 | h5 <;> simp [h1, h2, h3, h4, h5]
  unfold matchScore
  rw [if_pos hden]

/-- C7 (witness): the empty preferences give score 100 on a concrete
school. -/
theorem claim_C7_witness :
    leTruthy emptyPrefs = false ∧ matchScore emptyPrefs greenHills = 100 :=
  ⟨by decide,
   claim_C7 emptyPrefs greenHills (by decide) (by decide) (by decide) (by decide)
     (Or.inl rfl)⟩

/-- C8: a candidate whose stored curricula contain the literal string
"caie" matches a request for `curriculum = ["Cambridge"]` in the
filter's curriculum conjunct, in the scorer's curriculum hit test, and
in the `matched` count (the synonym table expands Cambridge to
cambridge/caie/cie and matching is an OR across tokens and synonyms). -/
theorem claim_C8 (p : Prefs) (d : School)
    (hcur : toArray p.curriculum = ["Cambridge"])
    (hmem : "caie" ∈ d.curriculum_list) :
    curCond p d = true ∧ curHit p d = true ∧ matchedCur p d = 1 := by
  have hregs : anyRegArr (makeContainsRegexes ["Cambridge"] CURR_SYNONYMS)
      d.curriculum_list = true := by
    unfold anyRegArr
    rw [List.any_eq_true]
    exact ⟨"caie", hmem, by decide⟩
  have hhit : curHit p d = true := by
    unfold curHit
    rw [hcur]
    simpa using hregs
  refine ⟨?_, hhit, ?_⟩
  · unfold curCond
    rw [hcur]
    simpa using hregs
  · unfold matchedCur
    rw [hhit]
    rfl

/-- C8 (witness): the Cambridge request matches the "caie" school. -/
theorem claim_C8_witness :
    toArray cambridgePrefs.curriculum = ["Cambridge"] ∧
    "caie" ∈ caieSchool.curriculum_list ∧
    (curCond cambridgePrefs caieSchool = true ∧
      curHit cambridgePrefs caieSchool = true ∧
      matchedCur cambridgePrefs caieSchool = 1) :=
  ⟨rfl, by decide, claim_C8 cambridgePrefs caieSchool rfl (by decide)⟩

/-- C3: a facility key unknown to `FacilitiesSchema` in the requested
facilities list imposes no constraint on which candidates are selected:
the document list fed to scoring (filtered fetch plus pin step) is the
same with and without the unknown key.  The computation is total by
construction, so a result is always returned.  (The stripping of
unknown-key conditions is the spec-modelled behaviour of the persistence
layer's query casting; see `facCond`.) -/
theorem claim_C3 (raw : String) (p : Prefs) (catalog : List School)
    (fs : List String) (f : String) (hf : f ∉ knownFacilityKeys) :
    selectedDocs raw { p with facilities := some (f :: fs) } catalog
      = selectedDocs raw { p with facilities := some fs } catalog :=
  selectedDocs_drop_unknown raw p catalog hf

/-- C3 (witness): adding the unknown key "jacuzzi" changes nothing on a
concrete catalog. -/
theorem claim_C3_witness :
    "jacuzzi" ∉ knownFacilityKeys ∧
    selectedDocs defaultPinnedRaw
        { emptyPrefs with facilities := some ["jacuzzi", "swimmingPool"] } [stEurit]
      = selectedDocs defaultPinnedRaw
        { emptyPrefs with facilities := some ["swimmingPool"] } [stEurit] :=
  ⟨by decide,
   claim_C3 defaultPinnedRaw emptyPrefs [stEurit] ["swimmingPool"] "jacuzzi" (by decide)⟩

/-- C10: when the request's city field is present but equal to the empty
string, the default "Harare" is not substituted (it applies only to an
absent field), no city conjunct is pushed (every school passes the city
test), the secondary pin lookup is not city-constrained, and with all
other fields empty the whole filter admits every school, whatever its
city. -/
theorem claim_C10 (p : Prefs) (hc : p.city = some "") :
    effCity p = "" ∧
    (∀ d, cityCond p d = true) ∧
    (∀ PINNED e, pinQuery p PINNED e = pinMatchOr PINNED e) ∧
    (leTruthy p = false → toArray p.curriculum = [] → toArray p.type = [] →
      toArray p.type2 = [] → (p.facilities = none ∨ p.facilities = some []) →
      ∀ d, schoolFilter p d = true) := by
  have he : effCity p = "" := by unfold effCity; rw [hc]; rfl
  refine ⟨he, ?_, ?_, ?_⟩
  · intro d
    unfold cityCond
    rw [he]
    rfl
  · intro PINNED e
    unfold pinQuery
    rw [he]
    rfl
  · intro h1 h2 h3 h4 h5 d
    unfold schoolFilter cityCond envCond curCond phaseCond boardingCond facCond
    rcases h5 with h5 | h5 <;> simp [he, h1, h2, h3, h4, h5]

/-- C10 (witness): with city present-but-empty and all else empty, a
school in another city passes the filter. -/
theorem claim_C10_witness :
    emptyPrefs.city = some "" ∧ bulawayoSchool.city = "Bulawayo" ∧
    schoolFilter emptyPrefs bulawayoSchool = true :=
  ⟨rfl, rfl,
   (claim_C10 emptyPrefs rfl).2.2.2 (by decide) (by decide) (by decide) (by decide)
     (Or.inl rfl) bulawayoSchool⟩

/-- C5 (counterexample): with facilities `["swimmingPool", "library"]`
requested and a candidate having only `swimmingPool`, the reason string
"Facilities: swimmingPool" is appended even though the facilities signal
group is not satisfied (`matched` gains nothing from it) — refuting the
claim that a reason is appended only when the group is satisfied. -/
theorem claim_C5_counterexample :
    mkReasons facPrefs stEurit = ["Facilities: swimmingPool"] ∧
    matchedFac facPrefs stEurit = 0 ∧
    facTrue stEurit "library" = false := by
  decide

/-- C5 (amended): the displayed reason is the reasons list joined with
" · "; the list is the concatenation, in the fixed order environment,
phase, boarding/day, curriculum, facilities; the environment, phase and
curriculum reasons appear iff their group counts toward `matched`; the
boarding reasons count exactly the matched sides; the facilities reason
appears iff at least one requested key is present on the candidate
(not: all of them, which is what `matched` requires). -/
theorem claim_C5_amended (PINNED : List String) (p : Prefs) (d : School) :
    (toRec PINNED p d).reason = String.intercalate " · " (mkReasons p d) ∧
    mkReasons p d =
      reasonEnv p d ++ reasonPhase p d ++ reasonBoarding p d ++
        reasonCur p d ++ reasonFac p d ∧
    (reasonEnv p d ≠ [] ↔ matchedEnv p d = 1) ∧
    (reasonPhase p d ≠ [] ↔ matchedPhase p d = 1) ∧
    (reasonBoarding p d).length = matchedBoarding p d ∧
    (reasonCur p d ≠ [] ↔ matchedCur p d = 1) ∧
    (p.facilities = none → reasonFac p d = []) ∧
    (∀ fs, p.facilities = some fs →
      (reasonFac p d ≠ [] ↔ ∃ f ∈ fs, facTrue d f = true)) := by
  refine ⟨rfl, rfl, ?_, ?_, ?_, ?_, ?_, ?_⟩
  · unfold reasonEnv matchedEnv
    split <;> simp
  · unfold reasonPhase matchedPhase
    split <;> simp
  · unfold reasonBoarding matchedBoarding
    cases he : (toArray p.type2).isEmpty
    · simp only [he, Bool.false_eq_true, reduceIte]
      split_ifs <;> simp
    · simp [he]
  · unfold reasonCur matchedCur
    split <;> simp
  · intro hf
    unfold reasonFac
    rw [hf]
  · intro fs hf
    unfold reasonFac
    rw [hf]
    cases fs with
    | nil => simp
    | cons a l =>
      simp only [List.isEmpty_cons, Bool.false_eq_true, reduceIte]
      by_cases hgot : (a :: l).filter (fun f => facTrue d f) = []
      · rw [List.filter_eq_nil_iff] at hgot
        simp only [List.isEmpty_iff]
        constructor
        · intro hne
          exfalso
          apply hne
          rw [if_pos (List.filter_eq_nil_iff.mpr hgot)]
        · rintro ⟨f, hfm, hft⟩
          exact absurd hft (by simpa using hgot f hfm)
      · constructor
        · intro _
          obtain ⟨f, hfm⟩ := List.exists_mem_of_ne_nil _ hgot
          have := List.mem_filter.mp hfm
          exact ⟨f, this.1, this.2⟩
        · intro _
          rw [if_neg (by simpa [List.isEmpty_iff] using hgot)]
          simp

/-- C5 (witness): the facilities-reason characterisation instantiated at
the strict-subset scenario. -/
theorem claim_C5_witness :
    facPrefs.facilities = some ["swimmingPool", "library"] ∧
    (reasonFac facPrefs stEurit ≠ [] ↔
      ∃ f ∈ ["swimmingPool", "library"], facTrue stEurit f = true) :=
  ⟨rfl,
   (claim_C5_amended (parsePinned defaultPinnedRaw) facPrefs stEurit).2.2.2.2.2.2.2
     ["swimmingPool", "library"] rfl⟩

/-- C9 (counterexample): a candidate satisfying a strict subset of the
requested facility keys (swimmingPool but not library) still appears in
the returned recommendations — it is the configured pin target and is
surfaced by the secondary pin lookup — refuting the claim that such a
candidate is excluded from recommendations. -/
theorem claim_C9_counterexample :
    facPrefs.facilities = some ["swimmingPool", "library"] ∧
    facTrue stEurit "swimmingPool" = true ∧
    facTrue stEurit "library" = false ∧
    (recommend defaultPinnedRaw facPrefs [stEurit]).map Rec.id = [7] := by
  decide

/-- C9 (amended): for a nonempty requested facilities list, the filter's
facilities conjunct holds iff every requested key known to the schema is
true on the candidate (unknown keys are stripped by the spec-modelled
query casting); the scorer's facilities signal counts toward `matched`
iff every requested key is satisfied; and a candidate failing some known
requested key is absent from the filtered fetch — it can appear in
recommendations only via the pin lookup. -/
theorem claim_C9_amended (p : Prefs) (d : School) (fs : List String)
    (catalog : List School) (hf : p.facilities = some fs) (hne : fs ≠ []) :
    ((∀ f ∈ fs, f ∈ knownFacilityKeys) →
      (facCond p d = true ↔ ∀ f ∈ fs, facTrue d f = true)) ∧
    (matchedFac p d = 1 ↔ ∀ f ∈ fs, facTrue d f = true) ∧
    ((∃ f ∈ fs, f ∈ knownFacilityKeys ∧ facTrue d f = false) →
      d ∉ findDocs p catalog) := by
  have hie : fs.isEmpty = false := by
    cases fs
    · exact absurd rfl hne
    · rfl
  have hfc : facCond p d = fs.all (fun f => facKeyCond d f) := by
    unfold facCond
    rw [hf]
    show (if fs.isEmpty = true then true else fs.all fun f => facKeyCond d f)
        = fs.all fun f => facKeyCond d f
    simp only [hie, Bool.false_eq_true, reduceIte]
  refine ⟨?_, ?_, ?_⟩
  · intro hknown
    rw [hfc, List.all_eq_true]
    constructor
    · intro hall f hfm
      have := hall f hfm
      rwa [facKeyCond_of_known (hknown f hfm)] at this
    · intro hall f hfm
      rw [facKeyCond_of_known (hknown f hfm)]
      exact hall f hfm
  · unfold matchedFac
    rw [hf]
    show (if (!fs.isEmpty && fs.all fun f => facTrue d f) = true then 1 else 0) = 1
        ↔ ∀ f ∈ fs, facTrue d f = true
    simp only [hie, Bool.not_false, Bool.true_and]
    cases hall : fs.all (fun f => facTrue d f)
    · simp only [Bool.false_eq_true, reduceIte]
      constructor
      · intro h
        exact absurd h (by decide)
      · intro h
        have : fs.all (fun f => facTrue d f) = true :=
          List.all_eq_true.mpr (fun f hfm => h f hfm)
        rw [hall] at this
        exact absurd this (by decide)
    · simp only [reduceIte]
      constructor
      · intro _
        exact List.all_eq_true.mp hall
      · intro _
        trivial
  · rintro ⟨f, hfm, hknown, hfalse⟩ hmem
    have hflt := (mem_findDocs hmem).2
    unfold schoolFilter at hflt
    have hfcond : facCond p d = true := by
      rw [Bool.and_eq_true] at hflt
      exact hflt.2
    rw [hfc, List.all_eq_true] at hfcond
    have := hfcond f hfm
    rw [facKeyCond_of_known hknown] at this
    rw [this] at hfalse
    exact absurd hfalse (by decide)

/-- C9 (witness): the amended statement at the concrete strict-subset
scenario. -/
theorem claim_C9_witness :
    facPrefs.facilities = some ["swimmingPool", "library"] ∧
    ¬ (matchedFac facPrefs stEurit = 1) ∧
    stEurit ∉ findDocs facPrefs [stEurit] := by
  have h := claim_C9_amended facPrefs stEurit ["swimmingPool", "library"] [stEurit]
    rfl (by decide)
  refine ⟨rfl, ?_, ?_⟩
  · intro h1
    have := h.2.1.mp h1
    exact absurd (this "library" (by decide)) (by decide)
  · exact h.2.2 ⟨"library", by decide, by decide, by decide⟩

/-- C2 (counterexample): the configured pin target (default
configuration) sits in the catalog with city "Harare"; preferences
naming city "Bulawayo" exclude it, and the secondary pin lookup — being
city-constrained — finds nothing, so the returned recommendations are
empty and do not contain the pin target, refuting the claim that the
list always still contains it. -/
theorem claim_C2_counterexample :
    isPinnedDoc (parsePinned defaultPinnedRaw) stEurit = true ∧
    schoolFilter bulawayoPrefs stEurit = false ∧
    recommend defaultPinnedRaw bulawayoPrefs [stEurit] = [] := by
  decide

/-- C2 (amended): when no fetched candidate matches the pin list and the
secondary lookup (which ignores the preference filter but keeps the city
constraint when the effective city is nonempty) finds S as first match
in the catalog, and S matches the pin list, then the returned
recommendations start with S's entry and that entry carries
`pinned = true`. -/
theorem claim_C2_amended (raw : String) (p : Prefs) (catalog : List School) (S : School)
    (hgate : (findDocs p catalog).any (isPinnedDoc (parsePinned raw)) = false)
    (hfind : catalog.find? (pinQuery p (parsePinned raw)) = some S)
    (hS : isPinnedDoc (parsePinned raw) S = true) :
    (recommend raw p catalog).head? = some (toRec (parsePinned raw) p S) ∧
    (toRec (parsePinned raw) p S).pinned = true := by
  have hsel : selectedDocs raw p catalog = S :: findDocs p catalog :=
    selectedDocs_of_find_some hgate hfind
  have hpinned : (toRec (parsePinned raw) p S).pinned = true := by
    simp [toRec, hS, shouldPin]
  refine ⟨?_, hpinned⟩
  unfold recommend
  rw [hsel, List.map_cons]
  apply sortedRecs_head
  · simp [toRec, hS, shouldPin]
  · intro y hy
    obtain ⟨d, hd, rfl⟩ := List.mem_map.mp hy
    have hdp : isPinnedDoc (parsePinned raw) d = false := by
      have hall := hgate
      rw [List.any_eq_false] at hall
      have h2 := hall d hd
      cases hx : isPinnedDoc (parsePinned raw) d
      · rfl
      · exact absurd hx h2
    simp [toRec, hdp]

/-- C2 (witness): the amended statement on a concrete catalog where the
filter (facilities request) excludes the pin target. -/
theorem claim_C2_witness :
    (findDocs facPrefs [stEurit]).any (isPinnedDoc (parsePinned defaultPinnedRaw)) = false ∧
    (recommend defaultPinnedRaw facPrefs [stEurit]).head?
      = some (toRec (parsePinned defaultPinnedRaw) facPrefs stEurit) :=
  ⟨by decide,
   (claim_C2_amended defaultPinnedRaw facPrefs [stEurit] stEurit
     (by decide) (by decide) (by decide)).1⟩

/-- C6 (counterexample): with the pathological pin configuration
`"a  b"` (internal double space) and a catalog school named "A  B", the
secondary lookup's anchored name regex matches while `isPinnedDoc`'s
whitespace-normalised comparison does not, so the same catalog document
is fetched by the filter and prepended again by the pin step: the
returned recommendations carry a duplicate school identity. -/
theorem claim_C6_counterexample :
    (recommend "a  b" missingPrefs [doubleSpaceSchool]).map Rec.id = [3, 3] ∧
    ¬ ((recommend "a  b" missingPrefs [doubleSpaceSchool]).map Rec.id).Nodup := by
  decide

/-- C6 (amended): the returned recommendations are always sorted by the
comparator order (pinned descending, matchScore descending, name
ascending); and they contain no duplicate school identities provided the
catalog's ids are distinct and every configured pin entry is lowercase,
trimmed and whitespace-normalised (the code lowercases and trims each
entry; whitespace-normalisation is the extra condition the
counterexample violates). -/
theorem claim_C6_amended (raw : String) (p : Prefs) (catalog : List School) :
    (recommend raw p catalog).Pairwise (fun a b => recLe a b = true) ∧
    ((catalog.map School.id).Nodup →
      (∀ q ∈ parsePinned raw, jsLower q = q ∧ jsTrim q = q ∧ normWs q = q) →
      ((recommend raw p catalog).map Rec.id).Nodup) := by
  constructor
  · haveI : IsTotal Rec (fun a b => recLe a b = true) := ⟨recLe_total⟩
    haveI : IsTrans Rec (fun a b => recLe a b = true) :=
      ⟨fun _ _ _ h1 h2 => recLe_trans h1 h2⟩
    exact List.sorted_insertionSort _ _
  · intro hcat hwf
    have h0 : ((findDocs p catalog).map School.id).Nodup := by
      have h1 : ((catalog.filter (schoolFilter p)).map School.id).Nodup :=
        ((List.filter_sublist catalog).map School.id).nodup hcat
      have hperm := (List.perm_insertionSort (fun a b => dbLe a b = true)
        (catalog.filter (schoolFilter p))).map School.id
      have h2 := hperm.nodup_iff.mpr h1
      unfold findDocs
      rw [List.map_take]
      exact (List.take_sublist _ _).nodup h2
    have hsel : ((selectedDocs raw p catalog).map School.id).Nodup := by
      cases hany : (findDocs p catalog).any (isPinnedDoc (parsePinned raw)) with
      | true =>
        rw [selectedDocs_of_any_pinned hany]
        exact h0
      | false =>
        cases hfind : catalog.find? (pinQuery p (parsePinned raw)) with
        | none =>
          rw [selectedDocs_of_find_none hany hfind]
          exact h0
        | some e =>
          rw [selectedDocs_of_find_some hany hfind, List.map_cons]
          refine List.nodup_cons.mpr ⟨?_, h0⟩
          intro hmem
          obtain ⟨d, hd, hid⟩ := List.mem_map.mp hmem
          have hdcat := (mem_findDocs hd).1
          have hecat := List.mem_of_find?_eq_some hfind
          have hq := List.find?_some hfind
          have hpin : isPinnedDoc (parsePinned raw) e = true := by
            apply isPinnedDoc_of_pinMatchOr hwf
            have hq2 := hq
            unfold pinQuery at hq2
            rw [Bool.and_eq_true] at hq2
            exact hq2.2
          have heq : d = e := List.inj_on_of_nodup_map hcat hdcat hecat hid
          rw [List.any_eq_false] at hany
          exact hany d hd (by rw [heq]; exact hpin)
    unfold recommend
    have hperm := (List.perm_insertionSort (fun a b => recLe a b = true)
      ((selectedDocs raw p catalog).map (toRec (parsePinned raw) p))).map Rec.id
    rw [List.map_map] at hperm
    have hcomp : (Rec.id ∘ toRec (parsePinned raw) p) = School.id := rfl
    rw [hcomp] at hperm
    exact hperm.nodup_iff.mpr hsel

/-- C6 (witness): sortedness and distinct ids at a concrete input under
the default (well-formed) pin configuration. -/
theorem claim_C6_witness :
    ([greenHills].map School.id).Nodup ∧
    ((recommend defaultPinnedRaw emptyPrefs [greenHills]).map Rec.id).Nodup :=
  ⟨by decide,
   (claim_C6_amended defaultPinnedRaw emptyPrefs [greenHills]).2 (by decide) (by decide)⟩

end SchoolFinder
